import Mathlib

/-!
# A TTL cache with a CPU (Arrow) and a GPU store path

Shallow embedding of `main.go`.

* `time.Time` readings and `time.Duration` values are integers (nanoseconds on one
  timeline); `time.Now()` is an explicit argument of every operation that reads the clock.
  `Set` and `Get` read it once; the loop of `CleanExpiredItems` reads it once per entry,
  so the sweep takes one reading for every key it tests.
* `map[string]CacheItem` is a `Finmap`: a finite map with unique keys and no iteration order.
* `sync.RWMutex` makes every operation one atomic step, so an operation is a function from
  the cache state before it to the cache state after it.
* A `[]byte` is a list of bytes; the `nil` slice is the empty list.
-/

namespace ArrowCache

/-- A byte of a Go `[]byte`. -/
abbrev Byte := Fin 256

/-- A clock reading (`time.Time`), in nanoseconds. -/
abbrev Time := Int

/-- A `time.Duration`, in nanoseconds; it may be zero or negative. -/
abbrev Duration := Int

/-- The Go method `t.Add(d)`. -/
def Time.Add (t : Time) (d : Duration) : Time := t + d

/-- The Go method `t.After(u)`: `t` is strictly later than `u`. -/
def Time.After (t u : Time) : Bool := decide (u < t)

/-- The Go type `Mode`, an `int`. -/
abbrev Mode := Int

/-- The constant `CPU` (`iota` = 0). -/
def CPU : Mode := 0

/-- The constant `GPU` (1). -/
def GPU : Mode := 1

/-- The Go struct `CacheItem`. -/
structure CacheItem where
  Value : List Byte
  ExpiresAt : Time
  deriving DecidableEq, Repr

/-- The Go type `map[string]CacheItem`. -/
abbrev Items := Finmap (fun _ : String => CacheItem)

/-- The Go struct `Cache`; the mutex and the allocator carry no data of the model. -/
structure Cache where
  items : Items
  mode : Mode
  deriving DecidableEq

/-- The Go function `NewCache`. -/
def NewCache (mode : Mode) : Cache :=
  { items := ∅, mode := mode }

/-! ### The Arrow binary builder used by the CPU path

`array.BinaryBuilder` keeps one value buffer and the start offset of every appended
element; `NewArray` closes the offsets with the buffer length; `Value(i)` is the slice of
the buffer between offsets `i` and `i+1`.  Offsets are natural numbers here: this is the
builder on values shorter than 2^31 bytes, the range of the 32-bit offsets Arrow keeps.
`Checked` below keeps the offsets in 32 bits and says when a store call returns. -/

/-- State of an `array.BinaryBuilder`. -/
structure BinaryBuilder where
  values : List Byte
  offsets : List Nat

/-- The Arrow array `array.Binary` produced by a builder. -/
structure Binary where
  valueBytes : List Byte
  valueOffsets : List Nat

/-- A fresh builder, `array.NewBinaryBuilder`. -/
def NewBinaryBuilder : BinaryBuilder :=
  { values := [], offsets := [] }

/-- The builder method `Append`: record the next offset, then copy the bytes. -/
def BinaryBuilder.Append (b : BinaryBuilder) (v : List Byte) : BinaryBuilder :=
  { values := b.values ++ v, offsets := b.offsets ++ [b.values.length] }

/-- The builder method `NewArray`: the closing offset is the buffer length. -/
def BinaryBuilder.NewArray (b : BinaryBuilder) : Binary :=
  { valueBytes := b.values, valueOffsets := b.offsets ++ [b.values.length] }

/-- The array method `Value(i)`: `valueBytes[valueOffsets[i] : valueOffsets[i+1]]`. -/
def Binary.Value (a : Binary) (i : Nat) : List Byte :=
  let lo := a.valueOffsets.getD i 0
  let hi := a.valueOffsets.getD (i + 1) 0
  (a.valueBytes.drop lo).take (hi - lo)

/-! ### Cache operations -/

/-- The Go method `SetWithArrow`, run with clock reading `now`, as a call that returns: the
value is one the 32-bit offsets of Arrow can hold, shorter than 2^31 bytes.
`Checked.Cache.SetWithArrow` below covers every value. -/
def Cache.SetWithArrow (c : Cache) (key : String) (value : List Byte) (ttl : Duration)
    (now : Time) : Cache :=
  let builder := NewBinaryBuilder.Append value
  let arr := builder.NewArray
  { c with items := c.items.insert key { Value := arr.Value 0, ExpiresAt := Time.Add now ttl } }

/-- The Go method `SetWithGPU`, run with clock reading `now`. -/
def Cache.SetWithGPU (c : Cache) (key : String) (value : List Byte) (ttl : Duration)
    (now : Time) : Cache :=
  { c with items := c.items.insert key { Value := value, ExpiresAt := Time.Add now ttl } }

/-- The Go method `Set`: dispatch on the mode; any other mode stores nothing. -/
def Cache.Set (c : Cache) (key : String) (value : List Byte) (ttl : Duration)
    (now : Time) : Cache :=
  if c.mode = CPU then c.SetWithArrow key value ttl now
  else if c.mode = GPU then c.SetWithGPU key value ttl now
  else c

/-- The Go method `Get`, run with clock reading `now`; the cache is not changed. -/
def Cache.Get (c : Cache) (key : String) (now : Time) : List Byte × Bool :=
  match c.items.lookup key with
  | none => ([], false)
  | some item => if Time.After now item.ExpiresAt then ([], false) else (item.Value, true)

/-- Body of the loop of `CleanExpiredItems` for the entry `(k, v)`: `clock k` is what
`time.Now()` returns in the iteration that tests the entry of `k`. -/
def cleanStep (clock : String → Time) (m : Items) (k : String) (v : CacheItem) : Items :=
  if Time.After (clock k) v.ExpiresAt then m.erase k else m

/-- The Go method `CleanExpiredItems`: range over the entries of the map (in no particular
order), read the clock anew for each entry, and delete the entry when that reading is
after its expiry. Every key is visited once, so the readings of one run are a function
`clock` of the key; a run in which the clock reads `t` throughout is `fun _ => t`. -/
def Cache.CleanExpiredItems (c : Cache) (clock : String → Time) : Cache :=
  let swept : Items := Finmap.foldl (cleanStep clock)
    (by
      intro m k₁ v₁ k₂ v₂
      unfold cleanStep
      split <;> split <;> first | rfl | exact Finmap.erase_erase)
    c.items c.items
  { c with items := swept }

/-! ### Serialised calls

The mutex makes every call atomic, so a concurrent run is one of its serialisations: a
list of calls, each with the clock reading it runs at. -/

/-- One call of a client on the cache. A sweep carries, for every key, how long after its
start the loop reads the clock for the entry of that key. -/
inductive Call where
  | Set (key : String) (value : List Byte) (ttl : Duration)
  | Get (key : String)
  | CleanExpiredItems (delay : String → Nat)

/-- One call started at clock reading `now`: the cache after the call, and what the call
returns (only `Get` returns something). `Get` assigns nothing, so its cache is `c`. -/
def Cache.step (c : Cache) (call : Call) (now : Time) : Cache × Option (List Byte × Bool) :=
  match call with
  | Call.Set key value ttl => (c.Set key value ttl now, none)
  | Call.Get key => (c, some (c.Get key now))
  | Call.CleanExpiredItems delay => (c.CleanExpiredItems (fun k => now + delay k), none)

/-- The cache after a serialised history of calls, first call first. -/
def Cache.run (c : Cache) (history : List (Call × Time)) : Cache :=
  history.foldl (fun d x => (d.step x.1 x.2).1) c

/-- The arguments of one `Set` call, with the clock reading it runs at. -/
structure SetCall where
  key : String
  value : List Byte
  ttl : Duration
  now : Time
  deriving DecidableEq

/-- The cache after a list of `Set` calls, run in the order of the list. -/
def Cache.applySets (c : Cache) (calls : List SetCall) : Cache :=
  calls.foldl (fun d x => d.Set x.key x.value x.ttl x.now) c

/-! ### Reference-level model of the byte slices

A Go `[]byte` is a window on a backing array, and two slices on the same array see each
other's writes. Here the backing arrays live in a heap, a slice names its array, and the
cache stores slices. The store paths and `Get` are the ones above, on slices. -/

namespace Mem

/-- A Go slice: the backing array it points to, its offset in it and its length. -/
structure Slice where
  arr : Nat
  off : Nat
  len : Nat
  deriving DecidableEq

/-- The `nil` slice: no element to read or write. -/
def Slice.nil : Slice := { arr := 0, off := 0, len := 0 }

/-- The backing arrays allocated so far; an array is named by its position. -/
abbrev Heap := List (List Byte)

/-- The bytes a slice shows. -/
def Heap.read (h : Heap) (s : Slice) : List Byte :=
  ((h.getD s.arr []).drop s.off).take s.len

/-- The Go assignment `s[i] = b`; an index out of range panics and writes nothing. -/
def Heap.write (h : Heap) (s : Slice) (i : Nat) (b : Byte) : Heap :=
  if i < s.len then h.set s.arr ((h.getD s.arr []).set (s.off + i) b) else h

/-- The Go struct `CacheItem`, its `Value` a slice. -/
structure CacheItem where
  Value : Slice
  ExpiresAt : Time
  deriving DecidableEq

/-- The Go struct `Cache`, its map holding slices. -/
structure Cache where
  items : Finmap (fun _ : String => CacheItem)
  mode : Mode
  deriving DecidableEq

/-- The Go function `NewCache`. -/
def NewCache (mode : Mode) : Cache :=
  { items := ∅, mode := mode }

/-- The Go method `SetWithArrow`: the builder copies the bytes of `value` into a buffer of
its own, a new backing array, and the stored slice is element 0 of the array built. -/
def Cache.SetWithArrow (h : Heap) (c : Cache) (key : String) (value : Slice) (ttl : Duration)
    (now : Time) : Heap × Cache :=
  let builder := NewBinaryBuilder.Append (h.read value)
  let arr := builder.NewArray
  let lo := arr.valueOffsets.getD 0 0
  let hi := arr.valueOffsets.getD 1 0
  let stored : Slice := { arr := h.length, off := lo, len := hi - lo }
  (h ++ [arr.valueBytes],
    { c with items := c.items.insert key { Value := stored, ExpiresAt := Time.Add now ttl } })

/-- The Go method `SetWithGPU`: the stored slice is the slice of the caller. -/
def Cache.SetWithGPU (h : Heap) (c : Cache) (key : String) (value : Slice) (ttl : Duration)
    (now : Time) : Heap × Cache :=
  (h, { c with items := c.items.insert key { Value := value, ExpiresAt := Time.Add now ttl } })

/-- The Go method `Set`. -/
def Cache.Set (h : Heap) (c : Cache) (key : String) (value : Slice) (ttl : Duration)
    (now : Time) : Heap × Cache :=
  if c.mode = CPU then c.SetWithArrow h key value ttl now
  else if c.mode = GPU then c.SetWithGPU h key value ttl now
  else (h, c)

/-- The Go method `Get`: the slice returned is the slice stored in the map. -/
def Cache.Get (c : Cache) (key : String) (now : Time) : Slice × Bool :=
  match c.items.lookup key with
  | none => (Slice.nil, false)
  | some item => if Time.After now item.ExpiresAt then (Slice.nil, false) else (item.Value, true)

end Mem

/-! ### The store paths with the 32-bit offsets of Arrow

Arrow keeps the offsets of a binary array as `int32`: the builder converts the length of
its value buffer with `int32(n)`, which wraps around, and `Value(i)` slices the buffer
with the offsets it finds, a slice expression that panics on bounds out of range. A store
call therefore either returns, with a cache, or panics (`none`), in `SetWithArrow` with the
lock held. The total `Set` above is the call that returns on a value in the 32-bit range. -/

namespace Checked

/-- The Go conversion `int32(n)` of an `int`: two's complement wrap-around. -/
def toInt32 (n : Int) : Int :=
  (n + 2147483648) % 4294967296 - 2147483648

/-- State of an `array.BinaryBuilder`, its offsets `int32` values. -/
structure BinaryBuilder where
  values : List Byte
  offsets : List Int

/-- The Arrow array `array.Binary` produced by a builder, its offsets `int32` values. -/
structure Binary where
  valueBytes : List Byte
  valueOffsets : List Int

/-- A fresh builder, `array.NewBinaryBuilder`. -/
def NewBinaryBuilder : BinaryBuilder :=
  { values := [], offsets := [] }

/-- The builder method `appendNextOffset`: record the length of the value buffer as the
next offset, converted to `int32`. -/
def BinaryBuilder.appendNextOffset (b : BinaryBuilder) : BinaryBuilder :=
  { values := b.values, offsets := b.offsets ++ [toInt32 b.values.length] }

/-- The builder method `Append`: record the next offset, then copy the bytes. -/
def BinaryBuilder.Append (b : BinaryBuilder) (v : List Byte) : BinaryBuilder :=
  { values := b.appendNextOffset.values ++ v, offsets := b.appendNextOffset.offsets }

/-- The builder method `NewArray`: record the closing offset and hand over the buffers. -/
def BinaryBuilder.NewArray (b : BinaryBuilder) : Binary :=
  { valueBytes := b.appendNextOffset.values, valueOffsets := b.appendNextOffset.offsets }

/-- The array method `Value(i)`: `valueBytes[valueOffsets[i] : valueOffsets[i+1]]`. It
panics (`none`) when `i` is not an element of the array, and when the slice bounds are
out of range: a negative bound, a low bound above the high one, or a high bound beyond
the buffer. -/
def Binary.Value (a : Binary) (i : Nat) : Option (List Byte) :=
  let lo := a.valueOffsets.getD i 0
  let hi := a.valueOffsets.getD (i + 1) 0
  if i + 1 < a.valueOffsets.length ∧ 0 ≤ lo ∧ lo ≤ hi ∧ hi ≤ a.valueBytes.length then
    some ((a.valueBytes.drop lo.toNat).take (hi - lo).toNat)
  else none

/-- The Go method `SetWithArrow`: the entry is assigned only when `Value(0)` returns. -/
def Cache.SetWithArrow (c : Cache) (key : String) (value : List Byte) (ttl : Duration)
    (now : Time) : Option Cache :=
  (((NewBinaryBuilder.Append value).NewArray).Value 0).map fun bytes =>
    { c with items := c.items.insert key { Value := bytes, ExpiresAt := Time.Add now ttl } }

/-- The Go method `SetWithGPU`: it always returns. -/
def Cache.SetWithGPU (c : Cache) (key : String) (value : List Byte) (ttl : Duration)
    (now : Time) : Option Cache :=
  some { c with items := c.items.insert key { Value := value, ExpiresAt := Time.Add now ttl } }

/-- The Go method `Set`: dispatch on the mode; any other mode returns and stores nothing. -/
def Cache.Set (c : Cache) (key : String) (value : List Byte) (ttl : Duration)
    (now : Time) : Option Cache :=
  if c.mode = CPU then Checked.Cache.SetWithArrow c key value ttl now
  else if c.mode = GPU then Checked.Cache.SetWithGPU c key value ttl now
  else some c

end Checked

/-! ## Auxiliary facts -/

/-- Element 0 of the array built from one appended value is that value. -/
theorem arrow_value_zero (v : List Byte) :
    ((NewBinaryBuilder.Append v).NewArray).Value 0 = v := by
  simp [NewBinaryBuilder, BinaryBuilder.Append, BinaryBuilder.NewArray, Binary.Value]

/-- The two store paths write the same entry. -/
theorem SetWithArrow_eq_SetWithGPU (c : Cache) (k : String) (v : List Byte) (ttl : Duration)
    (now : Time) : c.SetWithArrow k v ttl now = c.SetWithGPU k v ttl now := by
  simp only [Cache.SetWithArrow, Cache.SetWithGPU, arrow_value_zero]

/-- In CPU or GPU mode `Set` inserts the entry `(v, now + ttl)` under `k`. -/
theorem Set_items (c : Cache) (k : String) (v : List Byte) (ttl : Duration) (now : Time)
    (hm : c.mode = CPU ∨ c.mode = GPU) :
    (c.Set k v ttl now).items = c.items.insert k { Value := v, ExpiresAt := now + ttl } := by
  unfold Cache.Set
  rcases hm with h | h
  · rw [if_pos h, SetWithArrow_eq_SetWithGPU]; rfl
  · by_cases h0 : c.mode = CPU
    · rw [if_pos h0, SetWithArrow_eq_SetWithGPU]; rfl
    · rw [if_neg h0, if_pos h]; rfl

/-- The mode of a cache never changes under `Set`. -/
theorem Set_mode (c : Cache) (k : String) (v : List Byte) (ttl : Duration) (now : Time) :
    (c.Set k v ttl now).mode = c.mode := by
  unfold Cache.Set
  split
  · rfl
  · split <;> rfl

/-- The mode of a cache never changes under the sweep. -/
theorem CleanExpiredItems_mode (c : Cache) (clock : String → Time) :
    (c.CleanExpiredItems clock).mode = c.mode := rfl

/-- The result of `Get` on a key that has an entry. -/
theorem Get_of_lookup_some (c : Cache) (k : String) (now : Time) (e : CacheItem)
    (h : c.items.lookup k = some e) :
    c.Get k now = if e.ExpiresAt < now then ([], false) else (e.Value, true) := by
  simp [Cache.Get, h, Time.After]

/-- The result of `Get` on a key that has no entry. -/
theorem Get_of_lookup_none (c : Cache) (k : String) (now : Time)
    (h : c.items.lookup k = none) : c.Get k now = ([], false) := by
  simp [Cache.Get, h]

/-- Lookup after running the loop body over a list of entries, from any map. -/
theorem foldl_cleanStep_lookup (clock : String → Time) (k : String)
    (l : List (Sigma fun _ : String => CacheItem)) (m : Items) :
    (l.foldl (fun d s => cleanStep clock d s.1 s.2) m).lookup k =
      if l.any (fun s => decide (s.1 = k) && Time.After (clock s.1) s.2.ExpiresAt) then none
      else m.lookup k := by
  induction l generalizing m with
  | nil => simp
  | cons s rest ih =>
    rw [List.foldl_cons, ih]
    by_cases hr :
        rest.any (fun s => decide (s.1 = k) && Time.After (clock s.1) s.2.ExpiresAt) = true
    · simp [hr]
    · by_cases ha : Time.After (clock s.1) s.2.ExpiresAt = true
      · by_cases hk : s.1 = k
        · subst hk
          simp [cleanStep, ha]
        · have hk2 : k ≠ s.1 := fun h => hk h.symm
          simp [cleanStep, ha, hk, hr, Finmap.lookup_erase_ne hk2]
      · simp [cleanStep, ha, hr]

/-- Lookup after the sweep: the entry of `k` stays exactly when the reading taken for `k`
is not after its expiry. -/
theorem lookup_CleanExpiredItems (c : Cache) (clock : String → Time) (k : String) :
    (c.CleanExpiredItems clock).items.lookup k =
      (c.items.lookup k).filter (fun e => !Time.After (clock k) e.ExpiresAt) := by
  obtain ⟨items, mode⟩ := c
  induction items using Finmap.induction_on with
  | H s =>
    show (Finmap.foldl (cleanStep clock) _ _ _).lookup k = _
    unfold Finmap.foldl
    simp only [AList.toFinmap_entries, Multiset.coe_foldl]
    rw [foldl_cleanStep_lookup, Finmap.lookup_toFinmap]
    cases hl : s.lookup k with
    | none => simp
    | some e =>
      have hmem : (⟨k, e⟩ : Sigma fun _ : String => CacheItem) ∈ s.entries :=
        AList.mem_lookup_iff.mp hl
      have huniq : ∀ x ∈ s.entries, x.1 = k → x.2 = e := by
        intro x hx hxk
        obtain ⟨xk, xv⟩ := x
        simp only at hxk
        subst hxk
        have := AList.mem_lookup_iff.mpr hx
        rw [hl] at this
        exact (Option.some.inj this).symm
      by_cases ha : Time.After (clock k) e.ExpiresAt = true
      · have : s.entries.any
            (fun s => decide (s.1 = k) && Time.After (clock s.1) s.2.ExpiresAt) = true := by
          rw [List.any_eq_true]
          exact ⟨⟨k, e⟩, hmem, by simp [ha]⟩
        simp [this, Option.filter, ha]
      · have : ¬ s.entries.any
            (fun s => decide (s.1 = k) && Time.After (clock s.1) s.2.ExpiresAt) = true := by
          rw [List.any_eq_true]
          rintro ⟨x, hx, hp⟩
          simp only [Bool.and_eq_true, decide_eq_true_eq] at hp
          obtain ⟨h1, h2⟩ := hp
          rw [h1, huniq x hx h1] at h2
          exact ha h2
        simp [this, Option.filter, ha]

/-- After the sweep the key `k` holds `e` exactly when it held `e` before and the reading
taken for `k` is at or before the expiry of `e`. -/
theorem lookup_CleanExpiredItems_eq_some (c : Cache) (clock : String → Time) (k : String)
    (e : CacheItem) :
    (c.CleanExpiredItems clock).items.lookup k = some e ↔
      c.items.lookup k = some e ∧ clock k ≤ e.ExpiresAt := by
  rw [lookup_CleanExpiredItems]
  cases hl : c.items.lookup k with
  | none => simp
  | some e0 =>
    by_cases ha : e0.ExpiresAt < clock k
    · simp only [Option.filter, Time.After, ha, decide_True, Bool.not_true]
      constructor
      · intro h; cases h
      · rintro ⟨h1, h2⟩
        cases h1
        exact absurd ha (not_lt.mpr h2)
    · simp only [Option.filter, Time.After, ha, decide_False, Bool.not_false]
      constructor
      · intro h
        cases h
        exact ⟨rfl, not_lt.mp ha⟩
      · rintro ⟨h1, _⟩
        exact h1

/-- Two caches with the same map and the same mode are the same cache. -/
theorem Cache.ext_of (a b : Cache) (hi : a.items = b.items) (hm : a.mode = b.mode) : a = b := by
  obtain ⟨ai, am⟩ := a
  obtain ⟨bi, bm⟩ := b
  simp only at hi hm
  rw [hi, hm]

/-- Lookup of the key just written, in CPU or GPU mode. -/
theorem lookup_Set_self (c : Cache) (k : String) (v : List Byte) (ttl : Duration) (now : Time)
    (hm : c.mode = CPU ∨ c.mode = GPU) :
    (c.Set k v ttl now).items.lookup k = some { Value := v, ExpiresAt := now + ttl } := by
  rw [Set_items c k v ttl now hm, Finmap.lookup_insert]

/-- The result of `Get` on the key just written, in CPU or GPU mode, at any later reading. -/
theorem Get_Set_self (c : Cache) (k : String) (v : List Byte) (ttl : Duration) (t0 t1 : Time)
    (hm : c.mode = CPU ∨ c.mode = GPU) :
    (c.Set k v ttl t0).Get k t1 = if t0 + ttl < t1 then ([], false) else (v, true) := by
  rw [Get_of_lookup_some _ k t1 _ (lookup_Set_self c k v ttl t0 hm)]

/-- With a non-positive duration, a reading at or after `t0` that is not after `t0 + ttl`
is `t0` itself, and the duration is zero. -/
theorem boundary_of_not_after (ttl t0 t1 : Int) (httl : ttl ≤ 0) (h0 : t0 ≤ t1)
    (h : ¬ t0 + ttl < t1) : ttl = 0 ∧ t1 = t0 := by
  omega

/-- The conversion `int32(n)` leaves a length below 2^31 as it is. -/
theorem Checked.toInt32_of_lt (n : Nat) (h : n < 2147483648) :
    Checked.toInt32 (n : Int) = (n : Int) := by
  unfold Checked.toInt32
  omega

/-- The conversion `int32(n)` of a length from 2^31 up to 2^32 - 1 is negative. -/
theorem Checked.toInt32_neg_of_ge (n : Nat) (h1 : 2147483648 ≤ n) (h2 : n < 4294967296) :
    Checked.toInt32 (n : Int) < 0 := by
  unfold Checked.toInt32
  omega

/-- On a value shorter than 2^31 bytes, `Value(0)` of the array built from it returns the
value. -/
theorem Checked.Value_zero_of_short (v : List Byte) (h : v.length < 2147483648) :
    ((Checked.NewBinaryBuilder.Append v).NewArray).Value 0 = some v := by
  have h0 : Checked.toInt32 ((0 : Nat) : Int) = 0 := by decide
  have h1 := Checked.toInt32_of_lt v.length h
  simp only [Checked.NewBinaryBuilder, Checked.BinaryBuilder.Append,
    Checked.BinaryBuilder.NewArray, Checked.BinaryBuilder.appendNextOffset,
    Checked.Binary.Value, List.nil_append, List.length_nil, List.cons_append, List.getD_cons_zero,
    List.getD_cons_succ, List.length_cons, h0, h1]
  simp

/-- The array built from one appended value: the buffer is the value, the offsets are the
conversions of 0 and of its length. -/
theorem Checked.NewArray_Append (v : List Byte) :
    (Checked.NewBinaryBuilder.Append v).NewArray
      = { valueBytes := v,
          valueOffsets := [Checked.toInt32 ((0 : Nat) : Int), Checked.toInt32 (v.length : Int)] } :=
  rfl

/-- On a value of 2^31 bytes up to 2^32 - 1 bytes the closing offset wraps to a negative
`int32` and `Value(0)` panics. -/
theorem Checked.Value_zero_of_long (v : List Byte) (h1 : 2147483648 ≤ v.length)
    (h2 : v.length < 4294967296) :
    ((Checked.NewBinaryBuilder.Append v).NewArray).Value 0 = none := by
  have hneg := Checked.toInt32_neg_of_ge v.length h1 h2
  have h0 : Checked.toInt32 ((0 : Nat) : Int) = 0 := by decide
  rw [Checked.NewArray_Append, h0]
  unfold Checked.Binary.Value
  apply if_neg
  intro h
  have hle := h.2.2.1
  rw [List.getD_cons_zero, List.getD_cons_succ, List.getD_cons_zero] at hle
  exact absurd hneg (not_lt.mpr hle)

/-- The CPU store path panics when `Value(0)` does. -/
theorem checked_SetWithArrow_of_Value_none (c : Cache) (k : String) (v : List Byte)
    (ttl : Duration) (now : Time)
    (h : ((Checked.NewBinaryBuilder.Append v).NewArray).Value 0 = none) :
    Checked.Cache.SetWithArrow c k v ttl now = none := by
  unfold Checked.Cache.SetWithArrow
  rw [h]
  rfl

/-- The CPU store path stores the bytes `Value(0)` returns. -/
theorem checked_SetWithArrow_of_Value_some (c : Cache) (k : String) (v bytes : List Byte)
    (ttl : Duration) (now : Time)
    (h : ((Checked.NewBinaryBuilder.Append v).NewArray).Value 0 = some bytes) :
    Checked.Cache.SetWithArrow c k v ttl now
      = some (c.SetWithGPU k bytes ttl now) := by
  unfold Checked.Cache.SetWithArrow
  rw [h]
  rfl

/-- In CPU mode on a value shorter than 2^31 bytes, and in GPU mode on every value, the
store call returns, and the cache it leaves is the one `Set` computes. -/
theorem checkedSet_eq_some_Set (c : Cache) (k : String) (v : List Byte) (ttl : Duration)
    (now : Time) (hlen : c.mode = CPU → v.length < 2147483648) :
    Checked.Cache.Set c k v ttl now = some (c.Set k v ttl now) := by
  unfold Checked.Cache.Set Cache.Set
  by_cases h0 : c.mode = CPU
  · rw [if_pos h0, if_pos h0,
      checked_SetWithArrow_of_Value_some c k v v ttl now (Checked.Value_zero_of_short v (hlen h0)),
      SetWithArrow_eq_SetWithGPU]
  · rw [if_neg h0, if_neg h0]
    by_cases h1 : c.mode = GPU
    · rw [if_pos h1, if_pos h1]
      rfl
    · rw [if_neg h1, if_neg h1]

/-- In CPU mode on a value of 2^31 bytes up to 2^32 - 1 bytes the store call panics. -/
theorem checkedSet_none_of_long (c : Cache) (k : String) (v : List Byte) (ttl : Duration)
    (now : Time) (hm : c.mode = CPU) (h1 : 2147483648 ≤ v.length)
    (h2 : v.length < 4294967296) :
    Checked.Cache.Set c k v ttl now = none := by
  unfold Checked.Cache.Set
  rw [if_pos hm]
  exact checked_SetWithArrow_of_Value_none c k v ttl now (Checked.Value_zero_of_long v h1 h2)

/-! ## The claims -/

set_option linter.unusedVariables false

/-- C1: in CPU or GPU mode, for every key (the empty one included), value `v`, `ttl > 0` and
readings `t0 ≤ t1 < t0 + ttl`, `Get(k)` at `t1` after `Set(k, v, ttl)` at `t0` returns
`(v, true)`; the value the CPU path stores, element 0 of the Arrow array, is `v` itself. -/
theorem C1_get_after_set_live (c : Cache) (k : String) (v : List Byte) (ttl : Duration)
    (t0 t1 : Time) (hm : c.mode = CPU ∨ c.mode = GPU) (httl : 0 < ttl) (h0 : t0 ≤ t1)
    (h1 : t1 < t0 + ttl) :
    (c.Set k v ttl t0).Get k t1 = (v, true) ∧
      ((NewBinaryBuilder.Append v).NewArray).Value 0 = v := by
  refine ⟨?_, arrow_value_zero v⟩
  rw [Get_Set_self c k v ttl t0 t1 hm, if_neg (not_lt.mpr (le_of_lt h1))]

theorem C1_get_after_set_live_witness :
    ((NewCache CPU).mode = CPU ∨ (NewCache CPU).mode = GPU) ∧ (0 : Duration) < 100 ∧
      (7 : Time) ≤ 106 ∧ (106 : Time) < 7 + 100 ∧
      (((NewCache CPU).Set "" [1, 2] 100 7).Get "" 106 = ([1, 2], true) ∧
        ((NewBinaryBuilder.Append [1, 2]).NewArray).Value 0 = [1, 2]) :=
  ⟨by decide, by decide, by decide, by decide,
    C1_get_after_set_live (NewCache CPU) "" [1, 2] 100 7 106 (by decide) (by decide)
      (by decide) (by decide)⟩

/-- C2, as stated, fails: the entry of "a" expires at 100, the clock reads 100 (so
`t >= e.ExpiresAt`), and `Get` still returns the value with `true`. -/
theorem C2_counterexample :
    ((NewCache GPU).Set "a" [1, 2] 100 0).items.lookup "a"
        = some { Value := [1, 2], ExpiresAt := 100 } ∧
      (100 : Time) ≥ 100 ∧
      ((NewCache GPU).Set "a" [1, 2] 100 0).Get "a" 100 = ([1, 2], true) := by
  decide

/-- C2, amended: for a key `k` with entry `e` and a clock reading `t`, `Get(k)` at `t`
returns not-found exactly when `t` is strictly after `e.ExpiresAt`, and `(e.Value, true)`
otherwise; so at `t = e.ExpiresAt` the result is still `(e.Value, true)`. -/
theorem C2_get_expiry_strict (c : Cache) (k : String) (e : CacheItem) (t : Time)
    (h : c.items.lookup k = some e) :
    ((c.Get k t).2 = false ↔ e.ExpiresAt < t) ∧
      c.Get k t = (if e.ExpiresAt < t then ([], false) else (e.Value, true)) ∧
      (t = e.ExpiresAt → c.Get k t = (e.Value, true)) := by
  have hg := Get_of_lookup_some c k t e h
  refine ⟨?_, hg, ?_⟩
  · rw [hg]
    by_cases hlt : e.ExpiresAt < t <;> simp [hlt]
  · intro ht
    rw [hg, if_neg (by rw [ht]; exact lt_irrefl _)]

theorem C2_get_expiry_strict_witness :
    ((NewCache GPU).Set "a" [1, 2] 100 0).items.lookup "a"
        = some { Value := [1, 2], ExpiresAt := 100 } ∧
      (((NewCache GPU).Set "a" [1, 2] 100 0).Get "a" 101).2 = false ∧
      ((NewCache GPU).Set "a" [1, 2] 100 0).Get "a" 100 = ([1, 2], true) :=
  have h := C2_get_expiry_strict ((NewCache GPU).Set "a" [1, 2] 100 0) "a"
    { Value := [1, 2], ExpiresAt := 100 }
  ⟨by decide, (h 101 (by decide)).1.mpr (by decide), (h 100 (by decide)).2.2 rfl⟩

/-- C3, as stated, fails: with `ttl = 0` and the read at the very reading of the `Set`
(`t1 = t0 = 5`), `Get` returns the value with `true` instead of not-found. -/
theorem C3_counterexample :
    ((NewCache CPU).mode = CPU ∨ (NewCache CPU).mode = GPU) ∧ (0 : Duration) ≤ 0 ∧
      (5 : Time) ≥ 5 ∧ ((NewCache CPU).Set "a" [1, 2] 0 5).Get "a" 5 = ([1, 2], true) := by
  decide

/-- C3, amended: in CPU or GPU mode, for `ttl ≤ 0` and a read at `t1 ≥ t0`, `Get(k)` after
`Set(k, v, ttl)` at `t0` returns not-found, except when `ttl = 0` and `t1 = t0`, where the
clock is not yet after the expiry and `Get` returns `(v, true)`; in every case the entry
`(v, t0 + ttl)` is physically present in the map. -/
theorem C3_get_after_set_nonpositive_ttl (c : Cache) (k : String) (v : List Byte)
    (ttl : Duration) (t0 t1 : Time) (hm : c.mode = CPU ∨ c.mode = GPU) (httl : ttl ≤ 0)
    (h0 : t0 ≤ t1) :
    (c.Set k v ttl t0).Get k t1
        = (if ttl = 0 ∧ t1 = t0 then (v, true) else ([], false)) ∧
      (c.Set k v ttl t0).items.lookup k = some { Value := v, ExpiresAt := t0 + ttl } := by
  refine ⟨?_, lookup_Set_self c k v ttl t0 hm⟩
  rw [Get_Set_self c k v ttl t0 t1 hm]
  by_cases hb : ttl = 0 ∧ t1 = t0
  · obtain ⟨h1, h2⟩ := hb
    subst h1 h2
    simp
  · rw [if_neg hb, if_pos]
    by_contra hlt
    exact hb (boundary_of_not_after ttl t0 t1 httl h0 hlt)

theorem C3_get_after_set_nonpositive_ttl_witness :
    ((NewCache GPU).mode = CPU ∨ (NewCache GPU).mode = GPU) ∧ (-3 : Duration) ≤ 0 ∧
      (5 : Time) ≤ 5 ∧
      (((NewCache GPU).Set "a" [1, 2] (-3) 5).Get "a" 5
          = (if (-3 : Duration) = 0 ∧ (5 : Time) = 5 then ([1, 2], true) else ([], false)) ∧
        ((NewCache GPU).Set "a" [1, 2] (-3) 5).items.lookup "a"
          = some { Value := [1, 2], ExpiresAt := 5 + -3 }) :=
  ⟨by decide, by decide, by decide,
    C3_get_after_set_nonpositive_ttl (NewCache GPU) "a" [1, 2] (-3) 5 5 (by decide)
      (by decide) (by decide)⟩

/-- C4: in CPU or GPU mode, for every key, value, `ttl` and readings with `t1 > t0 + ttl`,
`Get(k)` at `t1` after `Set(k, v, ttl)` at `t0` returns not-found although no sweep ran:
the entry `(v, t0 + ttl)` is still in the map. -/
theorem C4_get_after_ttl_elapsed (c : Cache) (k : String) (v : List Byte) (ttl : Duration)
    (t0 t1 : Time) (hm : c.mode = CPU ∨ c.mode = GPU) (h1 : t1 > t0 + ttl) :
    (c.Set k v ttl t0).Get k t1 = ([], false) ∧
      (c.Set k v ttl t0).items.lookup k = some { Value := v, ExpiresAt := t0 + ttl } := by
  refine ⟨?_, lookup_Set_self c k v ttl t0 hm⟩
  rw [Get_Set_self c k v ttl t0 t1 hm, if_pos h1]

theorem C4_get_after_ttl_elapsed_witness :
    ((NewCache CPU).mode = CPU ∨ (NewCache CPU).mode = GPU) ∧ (151 : Time) > 50 + 100 ∧
      (((NewCache CPU).Set "a" [1, 2] 100 50).Get "a" 151 = ([], false) ∧
        ((NewCache CPU).Set "a" [1, 2] 100 50).items.lookup "a"
          = some { Value := [1, 2], ExpiresAt := 50 + 100 }) :=
  ⟨by decide, by decide,
    C4_get_after_ttl_elapsed (NewCache CPU) "a" [1, 2] 100 50 151 (by decide) (by decide)⟩

/-- C5, as stated, fails: on a cache constructed with the mode value 2, `Set` returns and
stores nothing, so the map holds no entry for the key. -/
theorem C5_counterexample :
    ((NewCache 2).Set "a" [1, 2] 100 0).items.lookup "a" = none ∧
      (NewCache 2).Set "a" [1, 2] 100 0 = NewCache 2 ∧
      Checked.Cache.Set (NewCache 2) "a" [1, 2] 100 0 = some (NewCache 2) := by
  decide

/-- C5, amended: on a cache whose mode is CPU or GPU, for every key, `ttl` and clock
reading `t`, and for every value, in CPU mode one shorter than 2^31 bytes (the range of the
32-bit offsets of the Arrow builder): `Set(k, v, ttl)` at `t` returns, and after it the map
holds an entry for `k` whose value is `v` and whose `ExpiresAt` is `t + ttl`. -/
theorem C5_set_stores_entry (c : Cache) (k : String) (v : List Byte) (ttl : Duration)
    (t : Time) (hm : c.mode = CPU ∨ c.mode = GPU)
    (hlen : c.mode = CPU → v.length < 2147483648) :
    ∃ d : Cache, Checked.Cache.Set c k v ttl t = some d ∧
      d.items.lookup k = some { Value := v, ExpiresAt := t + ttl } ∧ k ∈ d.items ∧
      d = c.Set k v ttl t :=
  ⟨c.Set k v ttl t, checkedSet_eq_some_Set c k v ttl t hlen, lookup_Set_self c k v ttl t hm,
    Finmap.mem_of_lookup_eq_some (lookup_Set_self c k v ttl t hm), rfl⟩

theorem C5_set_stores_entry_witness :
    ((NewCache CPU).mode = CPU ∨ (NewCache CPU).mode = GPU) ∧
      ((NewCache CPU).mode = CPU → ([1, 2] : List Byte).length < 2147483648) ∧
      ∃ d : Cache, Checked.Cache.Set (NewCache CPU) "a" [1, 2] (-4) 9 = some d ∧
        d.items.lookup "a" = some { Value := [1, 2], ExpiresAt := 9 + -4 } ∧ "a" ∈ d.items ∧
        d = (NewCache CPU).Set "a" [1, 2] (-4) 9 :=
  ⟨by decide, fun _ => by decide,
    C5_set_stores_entry (NewCache CPU) "a" [1, 2] (-4) 9 (by decide) (fun _ => by decide)⟩

/-- C6: overwrite law. In CPU or GPU mode, for readings `t1 ≤ t2`, the cache after
`Set(k, v1, ttl1)` at `t1` and then `Set(k, v2, ttl2)` at `t2` is the cache after
`Set(k, v2, ttl2)` at `t2` alone (same map, same mode); a later `Get(k)` at `t3` is a miss
when `t3` is after `t2 + ttl2` and `(v2, true)` otherwise, whatever `v1` and `ttl1` were. -/
theorem C6_overwrite (c : Cache) (k : String) (v1 v2 : List Byte) (ttl1 ttl2 : Duration)
    (t1 t2 : Time) (hm : c.mode = CPU ∨ c.mode = GPU) (h12 : t1 ≤ t2) :
    ((c.Set k v1 ttl1 t1).Set k v2 ttl2 t2).items = (c.Set k v2 ttl2 t2).items ∧
      (c.Set k v1 ttl1 t1).Set k v2 ttl2 t2 = c.Set k v2 ttl2 t2 ∧
      ∀ t3 : Time, ((c.Set k v1 ttl1 t1).Set k v2 ttl2 t2).Get k t3
        = if t2 + ttl2 < t3 then ([], false) else (v2, true) := by
  have hm1 : (c.Set k v1 ttl1 t1).mode = CPU ∨ (c.Set k v1 ttl1 t1).mode = GPU := by
    rw [Set_mode]; exact hm
  have hi : ((c.Set k v1 ttl1 t1).Set k v2 ttl2 t2).items = (c.Set k v2 ttl2 t2).items := by
    rw [Set_items _ k v2 ttl2 t2 hm1, Set_items c k v1 ttl1 t1 hm, Set_items c k v2 ttl2 t2 hm,
      Finmap.insert_insert]
  refine ⟨hi, ?_, ?_⟩
  · apply Cache.ext_of _ _ hi
    rw [Set_mode, Set_mode, Set_mode]
  · intro t3
    exact Get_Set_self _ k v2 ttl2 t2 t3 hm1

theorem C6_overwrite_witness :
    ((NewCache CPU).mode = CPU ∨ (NewCache CPU).mode = GPU) ∧ (0 : Time) ≤ 10 ∧
      (((NewCache CPU).Set "a" [1] 1000 0).Set "a" [2] 5 10).Get "a" 16 = ([], false) :=
  ⟨by decide, by decide,
    ((C6_overwrite (NewCache CPU) "a" [1] [2] 1000 5 0 10 (by decide) (by decide)).2.2
      16).trans (by decide)⟩

/-- C7, as stated, fails: the entry of "a" expires at 100 and the sweep reads the clock at
100 for every entry (so `t >= e.ExpiresAt`), yet the entry is still in the map after the
sweep. -/
theorem C7_counterexample :
    (((NewCache GPU).Set "a" [1, 2] 100 0).CleanExpiredItems (fun _ => 100)).items.lookup "a"
        = some { Value := [1, 2], ExpiresAt := 100 } ∧
      (100 : Time) ≥ 100 := by
  decide

/-- C7, amended: a sweep started at `t` reads the clock once per entry, at `t` or later.
After it, the key `k` holds `e` exactly when it held `e` before and the reading taken for
`k` is at or before `e.ExpiresAt`. So the map contains no entry `e` with `e.ExpiresAt < t`:
every entry that expired strictly before the sweep started has been physically removed;
and an entry whose `ExpiresAt` equals the reading taken for it is kept. In particular, in
CPU or GPU mode, after `Set("a", [1,2], 100ms)` and a sweep started 150ms later or more,
"a" is not a key of the map. -/
theorem C7_sweep_removes_strictly_expired (c : Cache) (clock : String → Time) (t : Time)
    (hstart : ∀ k : String, t ≤ clock k) :
    (∀ (k : String) (e : CacheItem),
        (c.CleanExpiredItems clock).items.lookup k = some e ↔
          c.items.lookup k = some e ∧ clock k ≤ e.ExpiresAt) ∧
      (∀ (k : String) (e : CacheItem),
        (c.CleanExpiredItems clock).items.lookup k = some e → t ≤ e.ExpiresAt) ∧
      (∀ (k : String) (e : CacheItem), c.items.lookup k = some e → e.ExpiresAt < t →
        (c.CleanExpiredItems clock).items.lookup k = none ∧
          k ∉ (c.CleanExpiredItems clock).items) ∧
      (∀ (k : String) (e : CacheItem), c.items.lookup k = some e → e.ExpiresAt = clock k →
        (c.CleanExpiredItems clock).items.lookup k = some e) ∧
      ((c.mode = CPU ∨ c.mode = GPU) → ∀ t0 : Time, t0 + 150000000 ≤ t →
        "a" ∉ ((c.Set "a" [1, 2] 100000000 t0).CleanExpiredItems clock).items) := by
  refine ⟨lookup_CleanExpiredItems_eq_some c clock, ?_, ?_, ?_, ?_⟩
  · intro k e h
    exact le_trans (hstart k) ((lookup_CleanExpiredItems_eq_some c clock k e).mp h).2
  · intro k e h hlt
    have hn : (c.CleanExpiredItems clock).items.lookup k = none := by
      rw [lookup_CleanExpiredItems, h]
      have : e.ExpiresAt < clock k := lt_of_lt_of_le hlt (hstart k)
      simp [Option.filter, Time.After, this]
    exact ⟨hn, Finmap.lookup_eq_none.mp hn⟩
  · intro k e h heq
    exact (lookup_CleanExpiredItems_eq_some c clock k e).mpr ⟨h, le_of_eq heq.symm⟩
  · intro hm t0 h150
    apply Finmap.lookup_eq_none.mp
    rw [lookup_CleanExpiredItems, lookup_Set_self c "a" [1, 2] 100000000 t0 hm]
    have h1 : t0 + 100000000 < t0 + 150000000 := by
      have h0 : (100000000 : Int) < 150000000 := by decide
      exact Int.add_lt_add_left h0 t0
    have : t0 + 100000000 < clock "a" := lt_of_lt_of_le h1 (le_trans h150 (hstart "a"))
    simp [Option.filter, Time.After, this]

theorem C7_sweep_removes_strictly_expired_witness :
    (∀ k : String, (10 : Time) ≤ (if k = "a" then 10 else 12)) ∧
      (((NewCache CPU).Set "a" [1] 10 0).Set "z" [7] 9 0).items.lookup "z"
        = some { Value := [7], ExpiresAt := 9 } ∧
      ((((NewCache CPU).Set "a" [1] 10 0).Set "z" [7] 9 0).CleanExpiredItems
          (fun k => if k = "a" then 10 else 12)).items.lookup "z" = none ∧
      ((((NewCache CPU).Set "a" [1] 10 0).Set "z" [7] 9 0).CleanExpiredItems
          (fun k => if k = "a" then 10 else 12)).items.lookup "a"
        = some { Value := [1], ExpiresAt := 10 } :=
  have hs : ∀ k : String, (10 : Time) ≤ (if k = "a" then 10 else 12) :=
    fun k => by split <;> decide
  have h := C7_sweep_removes_strictly_expired
    (((NewCache CPU).Set "a" [1] 10 0).Set "z" [7] 9 0) (fun k => if k = "a" then 10 else 12)
    10 hs
  ⟨hs, by decide,
    (h.2.2.1 "z" { Value := [7], ExpiresAt := 9 } (by decide) (by decide)).1,
    h.2.2.2.1 "a" { Value := [1], ExpiresAt := 10 } (by decide) (by decide)⟩

/-- C8, as stated, fails when `t` is the reading at which the sweep starts: the sweep reads
10 when it tests "a" and 12 when it tests "b"; the entry of "b" expires at 11, so
`t = 10 < 11`, and yet "b" is no longer in the map after the sweep. -/
theorem C8_counterexample :
    (((NewCache GPU).Set "a" [1] 10 0).Set "b" [7] 11 0).items.lookup "b"
        = some { Value := [7], ExpiresAt := 11 } ∧
      (10 : Time) < 11 ∧
      ((((NewCache GPU).Set "a" [1] 10 0).Set "b" [7] 11 0).CleanExpiredItems
          (fun k => if k = "a" then 10 else 12)).items.lookup "b" = none := by
  decide

/-- C8, amended: `CleanExpiredItems` removes only entries that are expired at the reading
the loop takes for them. A key whose entry `e` is tested at a reading at or before `t`,
with `t < e.ExpiresAt` (so for every `t` from the last reading of the sweep on), is still
mapped to `e` (same value, same expiry) after the sweep; more precisely an entry is kept
when the reading taken for it is at or before its expiry, and an entry that is removed
expired before the reading taken for it. Every entry of the map after the sweep is an
entry of the map before it, so the sweep adds no key and changes no surviving entry; the
mode is unchanged. -/
theorem C8_sweep_keeps_live (c : Cache) (clock : String → Time) :
    (∀ (k : String) (e : CacheItem) (t : Time), c.items.lookup k = some e → clock k ≤ t →
        t < e.ExpiresAt → (c.CleanExpiredItems clock).items.lookup k = some e) ∧
      (∀ (k : String) (e : CacheItem), c.items.lookup k = some e → clock k ≤ e.ExpiresAt →
        (c.CleanExpiredItems clock).items.lookup k = some e) ∧
      (∀ (k : String) (e : CacheItem), c.items.lookup k = some e →
        (c.CleanExpiredItems clock).items.lookup k = none → e.ExpiresAt < clock k) ∧
      (∀ (k : String) (e : CacheItem),
        (c.CleanExpiredItems clock).items.lookup k = some e → c.items.lookup k = some e) ∧
      (∀ k : String, k ∈ (c.CleanExpiredItems clock).items → k ∈ c.items) ∧
      (c.CleanExpiredItems clock).mode = c.mode := by
  have hkeep : ∀ (k : String) (e : CacheItem), c.items.lookup k = some e →
      clock k ≤ e.ExpiresAt → (c.CleanExpiredItems clock).items.lookup k = some e :=
    fun k e h hle => (lookup_CleanExpiredItems_eq_some c clock k e).mpr ⟨h, hle⟩
  have hsub : ∀ (k : String) (e : CacheItem),
      (c.CleanExpiredItems clock).items.lookup k = some e → c.items.lookup k = some e :=
    fun k e h => ((lookup_CleanExpiredItems_eq_some c clock k e).mp h).1
  refine ⟨?_, hkeep, ?_, hsub, ?_, rfl⟩
  · intro k e t h hle hlt
    exact hkeep k e h (le_trans hle (le_of_lt hlt))
  · intro k e h hn
    by_contra hnot
    have hs := hkeep k e h (not_lt.mp hnot)
    rw [hn] at hs
    cases hs
  · intro k hk
    obtain ⟨e, he⟩ := Finmap.mem_iff.mp hk
    exact Finmap.mem_of_lookup_eq_some (hsub k e he)

theorem C8_sweep_keeps_live_witness :
    (((NewCache GPU).Set "a" [1] 10 0).Set "b" [7] 13 0).items.lookup "b"
        = some { Value := [7], ExpiresAt := 13 } ∧
      (if ("b" : String) = "a" then (10 : Time) else 12) ≤ 12 ∧ (12 : Time) < 13 ∧
      ((((NewCache GPU).Set "a" [1] 10 0).Set "b" [7] 13 0).CleanExpiredItems
          (fun k => if k = "a" then 10 else 12)).items.lookup "b"
        = some { Value := [7], ExpiresAt := 13 } :=
  ⟨by decide, by decide, by decide,
    (C8_sweep_keeps_live (((NewCache GPU).Set "a" [1] 10 0).Set "b" [7] 13 0)
      (fun k => if k = "a" then 10 else 12)).1 "b" { Value := [7], ExpiresAt := 13 } 12
      (by decide) (by decide) (by decide)⟩

/-- C9: sweep safety, with the lock-protected operations serialised. In CPU or GPU mode,
with `long_ttl > 0` and readings `t0 ≤ t2 ≤ t3 < t2 + long_ttl`: after `Set(k, v, short_ttl)`
at `t0`, a sweep at `ts` and `Set(k, v2, long_ttl)` at `t2`, `Get(k)` at `t3` returns
`(v2, true)`, both when the sweep runs between the two `Set`s (`t0 ≤ ts ≤ t2`) and when it
runs after the second one (`t2 ≤ ts ≤ t3`). The same holds when the sweep reads the clock
once per entry, with all its readings between `t0` and `t2`, or between `t2` and `t3`. -/
theorem C9_sweep_safety (c : Cache) (k : String) (v v2 : List Byte)
    (short_ttl long_ttl : Duration) (t0 ts t2 t3 : Time)
    (hm : c.mode = CPU ∨ c.mode = GPU) (hlong : 0 < long_ttl) (h02 : t0 ≤ t2)
    (h23 : t2 ≤ t3) (h3 : t3 < t2 + long_ttl) :
    (t0 ≤ ts → ts ≤ t2 →
        (((c.Set k v short_ttl t0).CleanExpiredItems (fun _ => ts)).Set k v2 long_ttl t2).Get
          k t3 = (v2, true)) ∧
      (t2 ≤ ts → ts ≤ t3 →
        (((c.Set k v short_ttl t0).Set k v2 long_ttl t2).CleanExpiredItems (fun _ => ts)).Get
          k t3 = (v2, true)) ∧
      (∀ clock : String → Time, (∀ key : String, t0 ≤ clock key ∧ clock key ≤ t2) →
        (((c.Set k v short_ttl t0).CleanExpiredItems clock).Set k v2 long_ttl t2).Get k t3
          = (v2, true)) ∧
      (∀ clock : String → Time, (∀ key : String, t2 ≤ clock key ∧ clock key ≤ t3) →
        (((c.Set k v short_ttl t0).Set k v2 long_ttl t2).CleanExpiredItems clock).Get k t3
          = (v2, true)) := by
  have hm1 : (c.Set k v short_ttl t0).mode = CPU ∨ (c.Set k v short_ttl t0).mode = GPU := by
    rw [Set_mode]; exact hm
  have hnot : ¬ t2 + long_ttl < t3 := not_lt.mpr (le_of_lt h3)
  have before : ∀ clock : String → Time,
      (((c.Set k v short_ttl t0).CleanExpiredItems clock).Set k v2 long_ttl t2).Get k t3
        = (v2, true) := by
    intro clock
    have hm2 : ((c.Set k v short_ttl t0).CleanExpiredItems clock).mode = CPU ∨
        ((c.Set k v short_ttl t0).CleanExpiredItems clock).mode = GPU := by
      rw [CleanExpiredItems_mode]; exact hm1
    rw [Get_Set_self _ k v2 long_ttl t2 t3 hm2, if_neg hnot]
  have after : ∀ clock : String → Time, clock k ≤ t3 →
      (((c.Set k v short_ttl t0).Set k v2 long_ttl t2).CleanExpiredItems clock).Get k t3
        = (v2, true) := by
    intro clock hs3
    have hle : clock k ≤ t2 + long_ttl := le_of_lt (lt_of_le_of_lt hs3 h3)
    have hl := (lookup_CleanExpiredItems_eq_some
      ((c.Set k v short_ttl t0).Set k v2 long_ttl t2) clock k
      { Value := v2, ExpiresAt := t2 + long_ttl }).mpr
      ⟨lookup_Set_self _ k v2 long_ttl t2 hm1, hle⟩
    rw [Get_of_lookup_some _ k t3 _ hl, if_neg hnot]
  exact ⟨fun _ _ => before _, fun _ hs3 => after _ hs3, fun clock _ => before clock,
    fun clock hc => after clock (hc k).2⟩

theorem C9_sweep_safety_witness :
    ((NewCache CPU).mode = CPU ∨ (NewCache CPU).mode = GPU) ∧ (0 : Duration) < 100 ∧
      (0 : Time) ≤ 5 ∧ (5 : Time) ≤ 50 ∧ (50 : Time) < 5 + 100 ∧
      ((((NewCache CPU).Set "k" [1] 1 0).CleanExpiredItems (fun _ => 3)).Set "k" [2] 100 5).Get
        "k" 50 = ([2], true) ∧
      ((((NewCache CPU).Set "k" [1] 1 0).Set "k" [2] 100 5).CleanExpiredItems
        (fun key => if key = "k" then 7 else 9)).Get "k" 50 = ([2], true) :=
  have h := C9_sweep_safety (NewCache CPU) "k" [1] [2] 1 100 0 3 5 50 (by decide) (by decide)
    (by decide) (by decide) (by decide)
  have hc : ∀ key : String, (5 : Time) ≤ (if key = "k" then 7 else 9) ∧
      (if key = "k" then (7 : Time) else 9) ≤ 50 :=
    fun key => by constructor <;> split <;> decide
  ⟨by decide, by decide, by decide, by decide, by decide, h.1 (by decide) (by decide),
    h.2.2.2 (fun key => if key = "k" then 7 else 9) hc⟩

/-- C10: idempotence of the sweep. Running `CleanExpiredItems` twice at `t` yields the same
cache as running it once at `t`; for `t1 ≤ t2`, a sweep at `t1` followed by a sweep at `t2`
yields the same cache (same map, same mode) as a single sweep at `t2`. With one reading per
entry: a sweep followed by a second sweep whose reading for every key is not before the
first one's yields the same cache as the second sweep alone. -/
theorem C10_sweep_idempotent (c : Cache) (t : Time) :
    (c.CleanExpiredItems (fun _ => t)).CleanExpiredItems (fun _ => t)
        = c.CleanExpiredItems (fun _ => t) ∧
      ((c.CleanExpiredItems (fun _ => t)).CleanExpiredItems (fun _ => t)).items
        = (c.CleanExpiredItems (fun _ => t)).items ∧
      (∀ t1 t2 : Time, t1 ≤ t2 →
        (c.CleanExpiredItems (fun _ => t1)).CleanExpiredItems (fun _ => t2)
          = c.CleanExpiredItems (fun _ => t2)) ∧
      (∀ clock1 clock2 : String → Time, (∀ k : String, clock1 k ≤ clock2 k) →
        (c.CleanExpiredItems clock1).CleanExpiredItems clock2 = c.CleanExpiredItems clock2) ∧
      (∀ clock : String → Time,
        (c.CleanExpiredItems clock).CleanExpiredItems clock = c.CleanExpiredItems clock) := by
  have key : ∀ clock1 clock2 : String → Time, (∀ k : String, clock1 k ≤ clock2 k) →
      (c.CleanExpiredItems clock1).CleanExpiredItems clock2 = c.CleanExpiredItems clock2 := by
    intro clock1 clock2 h12
    refine Cache.ext_of _ _ ?_ rfl
    apply Finmap.ext_lookup
    intro k
    rw [lookup_CleanExpiredItems, lookup_CleanExpiredItems, lookup_CleanExpiredItems]
    cases c.items.lookup k with
    | none => rfl
    | some e =>
      by_cases h1 : e.ExpiresAt < clock1 k
      · have h2 : e.ExpiresAt < clock2 k := lt_of_lt_of_le h1 (h12 k)
        simp [Option.filter, Time.After, h1, h2]
      · by_cases h2 : e.ExpiresAt < clock2 k <;> simp [Option.filter, Time.After, h1, h2]
  exact ⟨key _ _ (fun _ => le_rfl), congrArg Cache.items (key _ _ (fun _ => le_rfl)),
    fun t1 t2 h => key _ _ (fun _ => h), key, fun clock => key clock clock (fun _ => le_rfl)⟩

theorem C10_sweep_idempotent_witness :
    (3 : Time) ≤ 12 ∧
      (((((NewCache GPU).Set "a" [1] 2 0).Set "b" [2] 10 0).Set "c" [3] 20
          0).CleanExpiredItems (fun _ => 3)).CleanExpiredItems (fun _ => 12)
        = ((((NewCache GPU).Set "a" [1] 2 0).Set "b" [2] 10 0).Set "c" [3] 20
          0).CleanExpiredItems (fun _ => 12) :=
  ⟨by decide,
    (C10_sweep_idempotent ((((NewCache GPU).Set "a" [1] 2 0).Set "b" [2] 10 0).Set "c" [3] 20 0)
      0).2.2.1 3 12 (by decide)⟩

/-! ## Further auxiliary facts -/

/-- A `Set` on `k` leaves the lookup of every other key as it was, in every mode. -/
theorem lookup_Set_of_ne (c : Cache) (k k2 : String) (v : List Byte) (ttl : Duration)
    (now : Time) (hne : k2 ≠ k) :
    (c.Set k v ttl now).items.lookup k2 = c.items.lookup k2 := by
  unfold Cache.Set
  split
  · exact Finmap.lookup_insert_of_ne _ hne
  · split
    · exact Finmap.lookup_insert_of_ne _ hne
    · rfl

/-- In a mode that is neither CPU nor GPU, `Set` returns the cache it was given. -/
theorem Set_eq_self_of_mode (c : Cache) (k : String) (v : List Byte) (ttl : Duration)
    (now : Time) (h0 : c.mode ≠ CPU) (h1 : c.mode ≠ GPU) : c.Set k v ttl now = c := by
  unfold Cache.Set
  rw [if_neg h0, if_neg h1]

/-- The sweep of a cache with an empty map leaves the map empty. -/
theorem CleanExpiredItems_items_empty (c : Cache) (clock : String → Time)
    (h : c.items = ∅) : (c.CleanExpiredItems clock).items = ∅ := by
  apply Finmap.ext_lookup
  intro k
  rw [lookup_CleanExpiredItems, h, Finmap.lookup_empty]
  rfl

/-- The mode of a cache never changes under a list of `Set` calls. -/
theorem applySets_mode (calls : List SetCall) (c : Cache) :
    (c.applySets calls).mode = c.mode := by
  induction calls generalizing c with
  | nil => rfl
  | cons a rest ih =>
    show ((c.Set a.key a.value a.ttl a.now).applySets rest).mode = c.mode
    rw [ih, Set_mode]

/-- A list of `Set` calls leaves the lookup of a key none of them names as it was. -/
theorem lookup_applySets_of_not_mem (calls : List SetCall) (c : Cache) (k : String)
    (hk : k ∉ calls.map SetCall.key) :
    (c.applySets calls).items.lookup k = c.items.lookup k := by
  induction calls generalizing c with
  | nil => rfl
  | cons a rest ih =>
    rw [List.map_cons, List.mem_cons, not_or] at hk
    show ((c.Set a.key a.value a.ttl a.now).applySets rest).items.lookup k = _
    rw [ih _ hk.2, lookup_Set_of_ne c a.key k a.value a.ttl a.now hk.1]

/-- After `Set` calls on pairwise distinct keys, in CPU or GPU mode, the key of each call
holds the entry that call wrote. -/
theorem lookup_applySets_of_mem (calls : List SetCall) (c : Cache)
    (hm : c.mode = CPU ∨ c.mode = GPU) (hnd : (calls.map SetCall.key).Nodup)
    (x : SetCall) (hx : x ∈ calls) :
    (c.applySets calls).items.lookup x.key
      = some { Value := x.value, ExpiresAt := x.now + x.ttl } := by
  induction calls generalizing c with
  | nil => cases hx
  | cons a rest ih =>
    rw [List.map_cons, List.nodup_cons] at hnd
    show ((c.Set a.key a.value a.ttl a.now).applySets rest).items.lookup x.key = _
    rcases List.mem_cons.mp hx with hxa | hxr
    · subst hxa
      rw [lookup_applySets_of_not_mem rest _ x.key hnd.1,
        lookup_Set_self c x.key x.value x.ttl x.now hm]
    · exact ih _ (by rw [Set_mode]; exact hm) hnd.2 hxr

/-- C11: `Get` on the cache returned by `NewCache`, for every mode value, key and clock
reading, returns `(nil, false)`; and `Get(k)` returns not-found on every cache state whose
map has no entry for `k`. -/
theorem C11_get_absent_key (c : Cache) (mode : Mode) (k : String) (t : Time) :
    (NewCache mode).Get k t = ([], false) ∧
      (c.items.lookup k = none → c.Get k t = ([], false)) ∧
      (k ∉ c.items → c.Get k t = ([], false)) :=
  ⟨Get_of_lookup_none _ k t (Finmap.lookup_empty k), Get_of_lookup_none c k t,
    fun h => Get_of_lookup_none c k t (Finmap.lookup_eq_none.mpr h)⟩

theorem C11_get_absent_key_witness :
    ((NewCache GPU).Set "a" [1] 10 0).items.lookup "b" = none ∧
      ((NewCache GPU).Set "a" [1] 10 0).Get "b" 3 = ([], false) ∧
      (NewCache 7).Get "" 3 = ([], false) :=
  ⟨by decide,
    (C11_get_absent_key ((NewCache GPU).Set "a" [1] 10 0) 7 "b" 3).2.1 (by decide),
    (C11_get_absent_key ((NewCache GPU).Set "a" [1] 10 0) 7 "" 3).1⟩

/-- C12: `Get` is a pure read. The cache after `Get(k)` at `t` is the cache before it (same
keys, values and expiries), and the call returns `Get`. When the entry `e` of `k` is
expired at `t` the call reports a miss and `e` is still in the map afterwards. -/
theorem C12_get_pure_read (c : Cache) (k : String) (t : Time) :
    (c.step (Call.Get k) t).1 = c ∧
      (c.step (Call.Get k) t).1.items = c.items ∧
      (c.step (Call.Get k) t).2 = some (c.Get k t) ∧
      ∀ e : CacheItem, c.items.lookup k = some e → e.ExpiresAt < t →
        (c.step (Call.Get k) t).2 = some ([], false) ∧
          (c.step (Call.Get k) t).1.items.lookup k = some e := by
  refine ⟨rfl, rfl, rfl, ?_⟩
  intro e he hlt
  refine ⟨?_, he⟩
  show some (c.Get k t) = _
  rw [Get_of_lookup_some c k t e he, if_pos hlt]

theorem C12_get_pure_read_witness :
    ((NewCache CPU).Set "a" [1] 10 0).items.lookup "a" = some { Value := [1], ExpiresAt := 10 } ∧
      (10 : Time) < 11 ∧
      (((NewCache CPU).Set "a" [1] 10 0).step (Call.Get "a") 11).2 = some ([], false) ∧
      (((NewCache CPU).Set "a" [1] 10 0).step (Call.Get "a") 11).1.items.lookup "a"
        = some { Value := [1], ExpiresAt := 10 } :=
  ⟨by decide, by decide,
    (C12_get_pure_read ((NewCache CPU).Set "a" [1] 10 0) "a" 11).2.2.2
      { Value := [1], ExpiresAt := 10 } (by decide) (by decide)⟩

/-- C13: N `Set`s on N distinct keys, then N `Get`s, under every serialisation, on a cache
in CPU or GPU mode, the modes the program constructs caches in. For every list of `Set`
calls on pairwise distinct keys with positive ttls, run in the order of the list at
non-decreasing clock readings: `Get` on the key of each call, at a reading before that call's expiry, returns the value of that call
with `true`; at a reading before the earliest expiry all N `Get`s hit; running the same
calls (each with its clock reading) in another order gives the same cache; and running
calls with the same keys, values and ttls at other clock readings gives a map with the same
keys and values (only the expiries may differ). -/
theorem C13_distinct_keys_all_hit (c : Cache) (calls : List SetCall)
    (hm : c.mode = CPU ∨ c.mode = GPU) (hnd : (calls.map SetCall.key).Nodup)
    (httl : ∀ x ∈ calls, 0 < x.ttl) (hmono : (calls.map SetCall.now).Sorted (· ≤ ·)) :
    (∀ x ∈ calls, ∀ tr : Time, tr < x.now + x.ttl →
        (c.applySets calls).Get x.key tr = (x.value, true)) ∧
      (∀ tr : Time, (∀ x ∈ calls, tr < x.now + x.ttl) →
        (calls.filter (fun x => ((c.applySets calls).Get x.key tr).2)).length = calls.length) ∧
      (∀ calls2 : List SetCall, calls2.Perm calls → c.applySets calls2 = c.applySets calls) ∧
      (∀ calls2 : List SetCall,
        (calls2.map (fun x => (x.key, x.value, x.ttl))).Perm
            (calls.map (fun x => (x.key, x.value, x.ttl))) →
          ∀ k : String,
            ((c.applySets calls2).items.lookup k).map CacheItem.Value
              = ((c.applySets calls).items.lookup k).map CacheItem.Value) := by
  have hit : ∀ x ∈ calls, ∀ tr : Time, tr < x.now + x.ttl →
      (c.applySets calls).Get x.key tr = (x.value, true) := by
    intro x hx tr htr
    rw [Get_of_lookup_some _ x.key tr _ (lookup_applySets_of_mem calls c hm hnd x hx),
      if_neg (not_lt.mpr (le_of_lt htr))]
  refine ⟨hit, ?_, ?_, ?_⟩
  · intro tr hall
    have : calls.filter (fun x => ((c.applySets calls).Get x.key tr).2) = calls := by
      rw [List.filter_eq_self]
      intro x hx
      rw [hit x hx tr (hall x hx)]
    rw [this]
  · intro calls2 hp
    have hnd2 : (calls2.map SetCall.key).Nodup := (hp.map SetCall.key).nodup_iff.mpr hnd
    refine Cache.ext_of _ _ ?_ (by rw [applySets_mode, applySets_mode])
    apply Finmap.ext_lookup
    intro k
    by_cases hk : k ∈ calls.map SetCall.key
    · obtain ⟨x, hx, rfl⟩ := List.mem_map.mp hk
      rw [lookup_applySets_of_mem calls c hm hnd x hx,
        lookup_applySets_of_mem calls2 c hm hnd2 x (hp.mem_iff.mpr hx)]
    · have hk2 : k ∉ calls2.map SetCall.key := fun h => hk ((hp.map SetCall.key).mem_iff.mp h)
      rw [lookup_applySets_of_not_mem calls c k hk, lookup_applySets_of_not_mem calls2 c k hk2]
  · intro calls2 hp k
    have hkeys : (calls2.map SetCall.key).Perm (calls.map SetCall.key) := by
      have := hp.map (fun p : String × List Byte × Duration => p.1)
      simpa [List.map_map, Function.comp_def] using this
    have hnd2 : (calls2.map SetCall.key).Nodup := hkeys.nodup_iff.mpr hnd
    by_cases hk : k ∈ calls.map SetCall.key
    · obtain ⟨x, hx, rfl⟩ := List.mem_map.mp hk
      have hx2 : (x.key, x.value, x.ttl) ∈ calls2.map (fun x => (x.key, x.value, x.ttl)) :=
        hp.mem_iff.mpr (List.mem_map.mpr ⟨x, hx, rfl⟩)
      obtain ⟨y, hy, hyx⟩ := List.mem_map.mp hx2
      simp only [Prod.mk.injEq] at hyx
      have hl2 := lookup_applySets_of_mem calls2 c hm hnd2 y hy
      rw [hyx.1] at hl2
      rw [lookup_applySets_of_mem calls c hm hnd x hx, hl2]
      simp [hyx.2.1]
    · have hk2 : k ∉ calls2.map SetCall.key := fun h => hk (hkeys.mem_iff.mp h)
      rw [lookup_applySets_of_not_mem calls c k hk, lookup_applySets_of_not_mem calls2 c k hk2]

theorem C13_distinct_keys_all_hit_witness :
    ((NewCache CPU).mode = CPU ∨ (NewCache CPU).mode = GPU) ∧
      ((NewCache CPU).applySets
          [{ key := "key0", value := [1], ttl := 600, now := 0 },
            { key := "key1", value := [2], ttl := 600, now := 3 }]).Get "key0" 599
        = ([1], true) ∧
      (NewCache CPU).applySets
          [{ key := "key1", value := [2], ttl := 600, now := 3 },
            { key := "key0", value := [1], ttl := 600, now := 0 }]
        = (NewCache CPU).applySets
          [{ key := "key0", value := [1], ttl := 600, now := 0 },
            { key := "key1", value := [2], ttl := 600, now := 3 }] :=
  have h := C13_distinct_keys_all_hit (NewCache CPU)
    [{ key := "key0", value := [1], ttl := 600, now := 0 },
      { key := "key1", value := [2], ttl := 600, now := 3 }]
    (by decide) (by decide) (by decide) (by decide)
  ⟨by decide,
    h.1 { key := "key0", value := [1], ttl := 600, now := 0 } (by decide) 599 (by decide),
    h.2.2.1 [{ key := "key1", value := [2], ttl := 600, now := 3 },
      { key := "key0", value := [1], ttl := 600, now := 0 }]
      (List.Perm.swap _ _ _)⟩

/-- C15: the sweep is invisible to readers. For every cache state `s`, key `k` and clock
readings `ts ≤ tg`, `Get(k)` at `tg` on the state left by `CleanExpiredItems` at `ts`
returns the same bytes and the same found flag as `Get(k)` at `tg` on `s` itself; so two
sweeps at different readings up to `tg`, or a sweep and none, give the same `Get`. The same
holds for a sweep that reads the clock once per entry, all its readings up to `tg`. -/
theorem C15_sweep_invisible_to_get (s : Cache) (k : String) (ts tg : Time) (h : ts ≤ tg) :
    (s.CleanExpiredItems (fun _ => ts)).Get k tg = s.Get k tg ∧
      (∀ ts2 : Time, ts2 ≤ tg →
        (s.CleanExpiredItems (fun _ => ts2)).Get k tg
          = (s.CleanExpiredItems (fun _ => ts)).Get k tg) ∧
      (∀ clock : String → Time, (∀ key : String, clock key ≤ tg) →
        (s.CleanExpiredItems clock).Get k tg = s.Get k tg) := by
  have key : ∀ clock : String → Time, clock k ≤ tg →
      (s.CleanExpiredItems clock).Get k tg = s.Get k tg := by
    intro clock ht
    cases hl : s.items.lookup k with
    | none =>
      have hn : (s.CleanExpiredItems clock).items.lookup k = none := by
        rw [lookup_CleanExpiredItems, hl]; rfl
      rw [Get_of_lookup_none _ k tg hn, Get_of_lookup_none s k tg hl]
    | some e =>
      by_cases hlt : e.ExpiresAt < clock k
      · have hn : (s.CleanExpiredItems clock).items.lookup k = none := by
          rw [lookup_CleanExpiredItems, hl]
          simp [Option.filter, Time.After, hlt]
        rw [Get_of_lookup_none _ k tg hn, Get_of_lookup_some s k tg e hl,
          if_pos (lt_of_lt_of_le hlt ht)]
      · have hs : (s.CleanExpiredItems clock).items.lookup k = some e := by
          rw [lookup_CleanExpiredItems, hl]
          simp [Option.filter, Time.After, hlt]
        rw [Get_of_lookup_some _ k tg e hs, Get_of_lookup_some s k tg e hl]
  refine ⟨key _ h, ?_, fun clock hc => key clock (hc k)⟩
  intro ts2 h2
  rw [key _ h2, key _ h]

theorem C15_sweep_invisible_to_get_witness :
    (11 : Time) ≤ 12 ∧
      (((NewCache CPU).Set "a" [1] 10 0).CleanExpiredItems (fun _ => 11)).Get "a" 12
        = ((NewCache CPU).Set "a" [1] 10 0).Get "a" 12 :=
  ⟨by decide,
    (C15_sweep_invisible_to_get ((NewCache CPU).Set "a" [1] 10 0) "a" 11 12 (by decide)).1⟩

/-- C16: `Set` touches only its own key. In CPU or GPU mode, for keys `k2 ≠ k`, the entry
of `k2` (presence, value and expiry) is the same after `Set(k, v, ttl)` as before, `Get(k2)`
at any reading returns what it would have returned without the `Set`, and the mode of the
cache is unchanged. -/
theorem C16_set_frame (c : Cache) (k k2 : String) (v : List Byte) (ttl : Duration)
    (t : Time) (hm : c.mode = CPU ∨ c.mode = GPU) (hne : k2 ≠ k) :
    (c.Set k v ttl t).items.lookup k2 = c.items.lookup k2 ∧
      (k2 ∈ (c.Set k v ttl t).items ↔ k2 ∈ c.items) ∧
      (∀ tg : Time, (c.Set k v ttl t).Get k2 tg = c.Get k2 tg) ∧
      (c.Set k v ttl t).mode = c.mode := by
  have hl := lookup_Set_of_ne c k k2 v ttl t hne
  refine ⟨hl, ?_, ?_, Set_mode c k v ttl t⟩
  · rw [← Finmap.lookup_isSome, ← Finmap.lookup_isSome, hl]
  · intro tg
    unfold Cache.Get
    rw [hl]

theorem C16_set_frame_witness :
    ((NewCache GPU).mode = CPU ∨ (NewCache GPU).mode = GPU) ∧ ("b" : String) ≠ "a" ∧
      (((NewCache GPU).Set "b" [7] 10 0).Set "a" [1] 5 2).items.lookup "b"
        = ((NewCache GPU).Set "b" [7] 10 0).items.lookup "b" :=
  ⟨by decide, by decide,
    (C16_set_frame ((NewCache GPU).Set "b" [7] 10 0) "a" "b" [1] 5 2 (by decide)
      (by decide)).1⟩

/-- C17: on a cache constructed by `NewCache` with a mode other than CPU (0) and GPU (1),
`Set` leaves the cache unchanged for every key, value, ttl and clock reading; after any
list of `Set`s, and after any serialised history of `Set`s, `Get`s and sweeps, the map is
empty and every `Get` returns not-found. -/
theorem C17_other_mode_stores_nothing (mode : Mode) (h0 : mode ≠ CPU) (h1 : mode ≠ GPU) :
    (∀ (c : Cache), c.mode = mode → ∀ (k : String) (v : List Byte) (ttl : Duration)
        (t : Time), c.Set k v ttl t = c ∧ (c.Set k v ttl t).items = c.items) ∧
      (∀ (calls : List SetCall) (k : String) (t : Time),
        (NewCache mode).applySets calls = NewCache mode ∧
          ((NewCache mode).applySets calls).Get k t = ([], false)) ∧
      (∀ (history : List (Call × Time)) (k : String) (t : Time),
        ((NewCache mode).run history).items = ∅ ∧
          ((NewCache mode).run history).Get k t = ([], false)) := by
  have hset : ∀ (c : Cache), c.mode = mode → ∀ (k : String) (v : List Byte) (ttl : Duration)
      (t : Time), c.Set k v ttl t = c := by
    intro c hc k v ttl t
    exact Set_eq_self_of_mode c k v ttl t (by rw [hc]; exact h0) (by rw [hc]; exact h1)
  have hsets : ∀ (calls : List SetCall) (c : Cache), c.mode = mode → c.applySets calls = c := by
    intro calls
    induction calls with
    | nil => intro c _; rfl
    | cons a rest ih =>
      intro c hc
      show (c.Set a.key a.value a.ttl a.now).applySets rest = c
      rw [hset c hc, ih c hc]
  have hrun : ∀ (history : List (Call × Time)) (c : Cache), c.mode = mode → c.items = ∅ →
      (c.run history).items = ∅ := by
    intro history
    induction history with
    | nil => intro c _ hc; exact hc
    | cons a rest ih =>
      intro c hc hi
      show ((c.step a.1 a.2).1.run rest).items = ∅
      obtain ⟨call, now⟩ := a
      cases call with
      | Set key value ttl =>
        show ((c.Set key value ttl now).run rest).items = ∅
        rw [hset c hc]
        exact ih c hc hi
      | Get key => exact ih c hc hi
      | CleanExpiredItems delay =>
        exact ih (c.CleanExpiredItems (fun k => now + delay k)) hc
          (CleanExpiredItems_items_empty c _ hi)
  refine ⟨fun c hc k v ttl t => ⟨hset c hc k v ttl t, by rw [hset c hc k v ttl t]⟩, ?_, ?_⟩
  · intro calls k t
    rw [hsets calls (NewCache mode) rfl]
    exact ⟨rfl, Get_of_lookup_none _ k t (Finmap.lookup_empty k)⟩
  · intro history k t
    have he := hrun history (NewCache mode) rfl rfl
    refine ⟨he, Get_of_lookup_none _ k t ?_⟩
    rw [he]
    exact Finmap.lookup_empty k

theorem C17_other_mode_stores_nothing_witness :
    (2 : Mode) ≠ CPU ∧ (2 : Mode) ≠ GPU ∧
      ((NewCache 2).Set "a" [1, 2] 100 0 = NewCache 2 ∧
        ((NewCache 2).Set "a" [1, 2] 100 0).items = (NewCache 2).items) ∧
      ((NewCache 2).run [(Call.Set "a" [1, 2] 100, 0), (Call.CleanExpiredItems (fun _ => 0), 1),
        (Call.Get "a", 1)]).Get "a" 1 = ([], false) :=
  ⟨by decide, by decide,
    (C17_other_mode_stores_nothing 2 (by decide) (by decide)).1 (NewCache 2) rfl "a" [1, 2]
      100 0,
    ((C17_other_mode_stores_nothing 2 (by decide) (by decide)).2.2
      [(Call.Set "a" [1, 2] 100, 0), (Call.CleanExpiredItems (fun _ => 0), 1),
        (Call.Get "a", 1)] "a" 1).2⟩

/-! ## Slices and aliasing -/

/-- In CPU mode `Set` allocates a new backing array holding the bytes of `value` and stores
the slice covering it. -/
theorem Mem.Set_of_CPU (h : Mem.Heap) (c : Mem.Cache) (k : String) (value : Mem.Slice)
    (ttl : Duration) (now : Time) (hm : c.mode = CPU) :
    Mem.Cache.Set h c k value ttl now
      = (h ++ [h.read value],
          { items := c.items.insert k (Mem.CacheItem.mk
              (Mem.Slice.mk h.length 0 (h.read value).length) (now + ttl)),
            mode := c.mode }) := by
  unfold Mem.Cache.Set
  rw [if_pos hm]
  simp [Mem.Cache.SetWithArrow, NewBinaryBuilder, BinaryBuilder.Append, BinaryBuilder.NewArray,
    Time.Add]

/-- The result of the slice-level `Get` on a key that has an entry. -/
theorem Mem.slice_Get_of_lookup_some (c : Mem.Cache) (k : String) (now : Time) (e : Mem.CacheItem)
    (h : c.items.lookup k = some e) :
    c.Get k now = if e.ExpiresAt < now then (Mem.Slice.nil, false) else (e.Value, true) := by
  simp [Mem.Cache.Get, h, Time.After]

/-- A write through a slice leaves every other backing array as it was. -/
theorem Mem.read_write_of_arr_ne (h : Mem.Heap) (s w : Mem.Slice) (i : Nat) (b : Byte)
    (hne : s.arr ≠ w.arr) : (h.write w i b).read s = h.read s := by
  unfold Mem.Heap.write Mem.Heap.read
  split
  · have : (h.set w.arr ((h.getD w.arr []).set (w.off + i) b)).getD s.arr [] = h.getD s.arr [] := by
      simp [List.getD_eq_getElem?_getD, List.getElem?_set_ne (Ne.symm hne)]
    rw [this]
  · rfl

/-- The `nil` slice shows no byte, in every heap. -/
theorem Mem.read_nil (h : Mem.Heap) : h.read Mem.Slice.nil = [] := by
  simp [Mem.Heap.read, Mem.Slice.nil]

/-- C14, as stated, fails. The caller holds the bytes `[1, 2]` in backing array 0.
In CPU mode, `Get` returns the slice stored in the map, and a write through the slice a
first `Get` returned changes the bytes a later `Get` returns from `[1, 2]` to `[9, 2]`.
In GPU mode the stored slice is the slice of the caller, and a write through the slice
passed to `Set`, after `Set` returned, changes the bytes a later `Get` returns. -/
theorem C14_counterexample :
    ((Mem.Cache.Set [[1, 2]] (Mem.NewCache CPU) "a" ⟨0, 0, 2⟩ 100 0).1.read
          ((Mem.Cache.Set [[1, 2]] (Mem.NewCache CPU) "a" ⟨0, 0, 2⟩ 100 0).2.Get "a" 1).1
        = [1, 2] ∧
      ((Mem.Cache.Set [[1, 2]] (Mem.NewCache CPU) "a" ⟨0, 0, 2⟩ 100 0).1.write
          ((Mem.Cache.Set [[1, 2]] (Mem.NewCache CPU) "a" ⟨0, 0, 2⟩ 100 0).2.Get "a" 1).1
          0 9).read
          ((Mem.Cache.Set [[1, 2]] (Mem.NewCache CPU) "a" ⟨0, 0, 2⟩ 100 0).2.Get "a" 2).1
        = [9, 2]) ∧
    ((Mem.Cache.Set [[1, 2]] (Mem.NewCache GPU) "a" ⟨0, 0, 2⟩ 100 0).1.read
          ((Mem.Cache.Set [[1, 2]] (Mem.NewCache GPU) "a" ⟨0, 0, 2⟩ 100 0).2.Get "a" 1).1
        = [1, 2] ∧
      ((Mem.Cache.Set [[1, 2]] (Mem.NewCache GPU) "a" ⟨0, 0, 2⟩ 100 0).1.write
          ⟨0, 0, 2⟩ 0 9).read
          ((Mem.Cache.Set [[1, 2]] (Mem.NewCache GPU) "a" ⟨0, 0, 2⟩ 100 0).2.Get "a" 2).1
        = [9, 2]) := by
  decide

/-- C14, amended: in CPU mode the cache stores a copy of the bytes. For every heap,
cache in CPU mode, key and slice `value` of an allocated backing array: the slice stored by
`Set(k, value, ttl)` shows the bytes of `value`, and a write through `value` after `Set`
returned, at any index and with any byte, does not change the bytes a later `Get(k)`
returns. `Get` itself, in every mode, hands out the slice stored in the map, not a copy. -/
theorem C14_cpu_set_stores_copy (h : Mem.Heap) (c : Mem.Cache) (k : String)
    (value : Mem.Slice) (ttl : Duration) (now tg : Time) (i : Nat) (b : Byte)
    (hm : c.mode = CPU) (hv : value.arr < h.length) :
    ((Mem.Cache.Set h c k value ttl now).1.write value i b).read
          ((Mem.Cache.Set h c k value ttl now).2.Get k tg).1
        = (Mem.Cache.Set h c k value ttl now).1.read
          ((Mem.Cache.Set h c k value ttl now).2.Get k tg).1 ∧
      (¬ now + ttl < tg →
        (Mem.Cache.Set h c k value ttl now).1.read
            ((Mem.Cache.Set h c k value ttl now).2.Get k tg).1 = h.read value ∧
          ((Mem.Cache.Set h c k value ttl now).2.Get k tg).2 = true) ∧
      (∀ (d : Mem.Cache) (e : Mem.CacheItem) (t : Time), d.items.lookup k = some e →
        ¬ e.ExpiresAt < t → d.Get k t = (e.Value, true)) := by
  have hl : (Mem.Cache.Set h c k value ttl now).2.items.lookup k
      = some (Mem.CacheItem.mk (Mem.Slice.mk h.length 0 (h.read value).length) (now + ttl)) := by
    rw [Mem.Set_of_CPU h c k value ttl now hm]
    exact Finmap.lookup_insert _
  have hheap : (Mem.Cache.Set h c k value ttl now).1 = h ++ [h.read value] := by
    rw [Mem.Set_of_CPU h c k value ttl now hm]
  have hg := Mem.slice_Get_of_lookup_some _ k tg _ hl
  refine ⟨?_, ?_, ?_⟩
  · rw [hg]
    by_cases hlt : now + ttl < tg
    · simp only [if_pos hlt]
      rw [Mem.read_nil, Mem.read_nil]
    · simp only [if_neg hlt]
      exact Mem.read_write_of_arr_ne _ _ value i b (Nat.ne_of_gt hv)
  · intro hlt
    rw [hg]
    simp only [if_neg hlt, hheap, and_true]
    simp [Mem.Heap.read, List.getD_eq_getElem?_getD]
  · intro d e t he hnot
    rw [Mem.slice_Get_of_lookup_some d k t e he, if_neg hnot]

theorem C14_cpu_set_stores_copy_witness :
    (Mem.NewCache CPU).mode = CPU ∧ (0 : Nat) < ([[1, 2]] : Mem.Heap).length ∧
      ((Mem.Cache.Set [[1, 2]] (Mem.NewCache CPU) "a" ⟨0, 0, 2⟩ 100 0).1.write
          ⟨0, 0, 2⟩ 0 9).read
          ((Mem.Cache.Set [[1, 2]] (Mem.NewCache CPU) "a" ⟨0, 0, 2⟩ 100 0).2.Get "a" 2).1
        = [1, 2] :=
  ⟨by decide, by decide,
    ((C14_cpu_set_stores_copy [[1, 2]] (Mem.NewCache CPU) "a" ⟨0, 0, 2⟩ 100 0 2 0 9
      (by decide) (by decide)).1).trans (by decide)⟩

end ArrowCache
